import Mathlib

/-!
Shallow embedding of the terrain-generation core of `app_fastapi.py`:
tile naming (`getDatFile`), the circle and rectangle area scans of
`generate_api` / `generate_rectangle_api`, the archive build loop
(`compressFiles`), and the per-request cleanup sweep.

Python floats are modelled exactly as rationals.  To keep every definition
kernel-executable we use an unnormalized fraction type `Q` (numerator and
denominator, no gcd reduction); `Q.toRat` maps it to Mathlib's `ℚ` and bridge
lemmas let the proofs reason over `ℚ`.  Machine integers are `Int`, the
filesystem is explicit state (`String → Option TileBytes`).
-/

/-- An exact rational, kept unnormalized so that all operations compute by
kernel reduction.  `den = 0` never arises on the inputs we quantify over
(positivity is carried as a hypothesis where it matters). -/
structure Q where
  num : Int
  den : Nat
deriving DecidableEq

/-- The rational value of a `Q`. -/
def Q.toRat (a : Q) : ℚ := (a.num : ℚ) / (a.den : ℚ)

/-- `math.floor` on an exact rational: integer division of numerator by
denominator (Euclidean `/` on `Int` floors for a nonnegative denominator). -/
def Q.floorI (a : Q) : Int := a.num / (a.den : Int)

def Q.add (a b : Q) : Q := ⟨a.num * b.den + b.num * a.den, a.den * b.den⟩

def Q.sub (a b : Q) : Q := ⟨a.num * b.den - b.num * a.den, a.den * b.den⟩

def Q.mul (a b : Q) : Q := ⟨a.num * b.num, a.den * b.den⟩

/-- Boolean `<=` comparison (cross multiplication; valid for positive
denominators). -/
def Q.leB (a b : Q) : Bool := decide (a.num * (b.den : Int) ≤ b.num * (a.den : Int))

def Q.ofInt (n : Int) : Q := ⟨n, 1⟩

/-- The literal `1.0`. -/
def qone : Q := ⟨1, 1⟩

/-- The literal `1e7`. -/
def qe7 : Q := ⟨10000000, 1⟩

/-- The literal `1.0e-7`. -/
def qem7 : Q := ⟨1, 10000000⟩

/-- The literal `1000.0`. -/
def qkm : Q := ⟨1000, 1⟩

/-- Embeds `getDatFile`'s `"%0Nu"` formatting: decimal digits of `n`
zero-padded on the left to width `w`. -/
def padNum (w : Nat) (n : Nat) : String :=
  let s := Nat.repr n
  String.mk (List.replicate (w - s.length) '0') ++ s

/-- Embeds `getDatFile(lat, lon)` (app_fastapi.py lines 114-124): hemisphere
letter from the sign, magnitude clamped to 99 / 999, fixed `.DAT.gz` suffix. -/
def getDatFile (lat lon : Int) : String :=
  (if lat < 0 then "S" else "N") ++ padNum 2 (min lat.natAbs 99) ++
  (if lon < 0 then "W" else "E") ++ padNum 3 (min lon.natAbs 999) ++ ".DAT.gz"

/-- `os.path.join(dir, fn)` for the flat layouts used here. -/
def joinPath (dir fn : String) : String := dir ++ "/" ++ fn

/-- `os.path.basename`: the part after the last `/`. -/
def basename (p : String) : String := (p.splitOn "/").getLastD p

/-- The full path appended to `filelist` for one tile cell
(`os.path.join(tile_path, getDatFile(lat_int, lon_int))`). -/
def tileFile (tilePath : String) (c : Int × Int) : String :=
  joinPath tilePath (getDatFile c.1 c.2)

/-- State threaded through the tile scan loops of `generate_api` and
`generate_rectangle_api`: the `done` dedup set (modelled as the list of
inserted tags), the accumulated `filelist`, and the `outsideLat` flag
(`none` models Python `None`). -/
structure ScanState where
  done : List (Int × Int)
  filelist : List String
  outsideLat : Option Bool
deriving DecidableEq

def initState : ScanState := ⟨[], [], none⟩

/-- One iteration of the scan loop body (lines 224-235 / 309-320): skip if the
tag is already in `done`, else record it and either append the tile filename
(when `abs(lat_int) <= 84`) or set the outside-latitude flag. -/
def scanStep (tilePath : String) (st : ScanState) (cell : Int × Int) : ScanState :=
  if cell ∈ st.done then st
  else
    { done := st.done ++ [cell]
      filelist :=
        if cell.1.natAbs ≤ 84 then st.filelist ++ [tileFile tilePath cell]
        else st.filelist
      outsideLat := if cell.1.natAbs ≤ 84 then st.outsideLat else some true }

def runScan (tilePath : String) (cells : List (Int × Int)) : ScanState :=
  cells.foldl (scanStep tilePath) initState

/-- Python `range(lo, hi)` over integers. -/
def rangeInts (lo hi : Int) : List Int :=
  (List.range (hi - lo).toNat).map (fun k : Nat => lo + (k : Int))

/-- The cells produced by `generate_api`'s circle scan (lines 222-227): for
`dx, dy ∈ range(-radius, radius)` apply the opaque geodesic-offset function
`off` (the black-box `add_offset`) to the center in 1e7 fixed-point units and
floor the result back to integer degrees. -/
def circleCells (off : Q → Q → Q → Q → Q × Q) (lat lon : Q) (radius : Int) :
    List (Int × Int) :=
  (rangeInts (-radius) radius).flatMap fun dx =>
    (rangeInts (-radius) radius).map fun dy =>
      let p := off (lat.mul qe7) (lon.mul qe7) ((Q.ofInt dx).mul qkm) ((Q.ofInt dy).mul qkm)
      ((p.1.mul qem7).floorI, (p.2.mul qem7).floorI)

/-- Fuel-driven unfolding of the rectangle scan's `while lo <= hi: ... lo += 1.0`
loop, listing the values the loop variable takes. -/
def scanValsAux : Nat → Q → Q → List Q
  | 0, _, _ => []
  | fuel + 1, lo, hi => if lo.leB hi then lo :: scanValsAux fuel (lo.add qone) hi else []

/-- The values visited by `while lo <= hi` stepping by `1.0`
(app_fastapi.py lines 305-322).  The fuel `⌊hi - lo⌋ + 1` is exactly the
number of iterations of the loop; `scanValsAux_map_floorI` below proves the
result agrees with the unbounded loop for any fuel at least this large. -/
def scanVals (lo hi : Q) : List Q :=
  scanValsAux ((hi.sub lo).floorI + 1).toNat lo hi

/-- The cells produced by `generate_rectangle_api`'s nested degree scan
(lines 305-322): floor the loop variables to integer degrees. -/
def rectCells (minLat maxLat minLon maxLon : Q) : List (Int × Int) :=
  (scanVals minLat maxLat).flatMap fun la =>
    (scanVals minLon maxLon).map fun lo => (la.floorI, lo.floorI)

/-- `dict.fromkeys` dedup helper: keep the first occurrence of each element,
skipping anything already seen. -/
def dkfAux (seen : List String) : List String → List String
  | [] => []
  | x :: xs => if x ∈ seen then dkfAux seen xs else x :: dkfAux (x :: seen) xs

/-- Embeds `list(dict.fromkeys(filelist))` (lines 238 / 325): order-preserving
removal of duplicates. -/
def dedupKeepFirst (l : List String) : List String := dkfAux [] l

/-- Resolved file list of the circle endpoint (`generate_api`). -/
def circleFileList (tilePath : String) (off : Q → Q → Q → Q → Q × Q)
    (lat lon : Q) (radius : Int) : List String :=
  dedupKeepFirst (runScan tilePath (circleCells off lat lon radius)).filelist

/-- Resolved file list of the rectangle endpoint (`generate_rectangle_api`). -/
def rectFileList (tilePath : String) (minLat maxLat minLon maxLon : Q) : List String :=
  dedupKeepFirst (runScan tilePath (rectCells minLat maxLat minLon maxLon)).filelist

/-- The on-disk content of one compressed tile file: whether it is a valid
gzip stream, and the decompressed payload. -/
structure TileBytes where
  gzOk : Bool
  payload : String
deriving DecidableEq

/-- A directory of tile files, as a map from path to content. -/
def Store := String → Option TileBytes

/-- Writing a file: `open(fn, 'b+w'); f.write(...)`. -/
def setStore (s : Store) (p : String) (b : TileBytes) : Store :=
  fun n => if n = p then some b else s n

/-- The empty tile directory. -/
def emptyStore : Store := fun _ => none

/-- The entry name used inside the zip: `os.path.basename(fn)[:-3]`
(line 169). -/
def zipEntryName (fn : String) : String := (basename fn).dropRight 3

/-- Outcome of processing one tile inside `compressFiles`' loop: either an
entry to add to the zip (with the possibly-updated tile directory and whether
a download happened), or an uncaught exception. -/
inductive StepOut where
  | ok (store : Store) (downloaded : Bool) (entry : String) (data : String)
  | err (store : Store)

def StepOut.store : StepOut → Store
  | .ok s _ _ _ => s
  | .err s => s

def StepOut.downloaded : StepOut → Bool
  | .ok _ d _ _ => d
  | .err _ => false

def StepOut.isErr : StepOut → Bool
  | .ok _ _ _ _ => false
  | .err _ => true

/-- One iteration of `compressFiles`' tile loop (lines 153-170): if the local
file is absent and an origin URL is configured, fetch `url_path + basename fn`
(a failing fetch raises) and write the raw bytes to `fn`; then `gzip.open` the
local file (raises if absent or not valid gzip) and produce the zip entry. -/
def tileStep (origin : Option (String → Option TileBytes)) (loc : Store) (fn : String) :
    StepOut :=
  match loc fn with
  | some b => if b.gzOk then .ok loc false (zipEntryName fn) b.payload else .err loc
  | none =>
    match origin with
    | none => .err loc
    | some o =>
      match o (basename fn) with
      | none => .err loc
      | some b =>
        if b.gzOk then .ok (setStore loc fn b) true (zipEntryName fn) b.payload
        else .err (setStore loc fn b)

/-- Result of `compressFiles`: the returned flag, the state of the destination
zip file on disk after the call (`none` would mean no file at the destination;
`ZipFile(zipthis, 'w')` creates it before the loop and nothing ever removes
it), the entries written, and the final tile directory. -/
structure BuildOut where
  success : Bool
  zipOnDisk : Option (List (String × String))
  entries : List (String × String)
  store : Store

/-- The `for fn in fileList` loop of `compressFiles` (lines 152-176): on the
first uncaught exception the function returns `False`, leaving the zip with
the entries written so far; otherwise it returns `True`. -/
def buildLoop (origin : Option (String → Option TileBytes)) :
    Store → List (String × String) → List String → BuildOut
  | loc, acc, [] => ⟨true, some acc, acc, loc⟩
  | loc, acc, fn :: rest =>
    match tileStep origin loc fn with
    | .ok loc2 _ nm data => buildLoop origin loc2 (acc ++ [(nm, data)]) rest
    | .err loc2 => ⟨false, some acc, acc, loc2⟩

/-- Embeds `compressFiles(fileList, uuidkey, version)` (lines 126-176), with
the version-dependent `url_path`/`tile_path` selection abstracted into the
`origin` and `loc` parameters. -/
def compressFiles (origin : Option (String → Option TileBytes)) (loc : Store)
    (fileList : List String) : BuildOut :=
  buildLoop origin loc [] fileList

/-- Filesystem operations, to describe the write pattern of the download
branch. -/
inductive FsOp where
  | openTrunc (p : String)
  | writeAll (p : String)
  | rename (src dst : String)
deriving DecidableEq

/-- The sequence of filesystem operations performed by the cache-miss download
branch (lines 160-161): `open(fn, 'b+w')` truncate-creates the final path
itself, then the response bytes are written into it.  There is no temporary
path and no rename. -/
def downloadOps (fn : String) : List FsOp := [.openTrunc fn, .writeAll fn]

/-- The successive states of the tile directory while the download branch
writes: after the truncating open the path holds an empty (invalid) file;
after the write it holds the downloaded bytes. -/
def midDownloadStates (loc : Store) (fn : String) (b : TileBytes) : List Store :=
  [setStore loc fn ⟨false, ""⟩, setStore loc fn b]

/-- Modelled from the spec (section 4.3), for comparison with the code's
`downloadOps`: the claimed atomic write pattern, in its weakest reading —
some temporary path distinct from the destination is renamed onto it. -/
def atomicViaTemp (fn : String) : Prop :=
  ∃ tmp, tmp ≠ fn ∧ FsOp.rename tmp fn ∈ downloadOps fn

/-- One entry of the artifact directory listing, with the outcomes of the
filesystem calls made on it by the cleanup loop: `statMtime = none` models
`os.stat` raising (the file vanished after listing), `removeOk = false`
models `os.remove` raising. -/
structure DirEntry where
  name : String
  statMtime : Option Int
  removeOk : Bool
deriving DecidableEq

/-- The cleanup sweep of `generate_api` / `generate_rectangle_api`
(lines 244-248 / 331-335): for each listed entry, `os.stat` it and remove it
when older than the cutoff.  There is no `try`/`except` around the body, so
the first raising call aborts the loop: `none` models the exception
propagating (the remaining entries are not visited), `some removed` the names
actually deleted. -/
def sweepLoop (cutoff : Int) : List DirEntry → Option (List String)
  | [] => some []
  | e :: rest =>
    match e.statMtime with
    | none => none
    | some m =>
      if m < cutoff then
        if e.removeOk then (sweepLoop cutoff rest).map (fun r => e.name :: r)
        else none
      else sweepLoop cutoff rest

/-- Whether the cleanup loop's body raises on this entry at this cutoff. -/
def entryFails (cutoff : Int) (e : DirEntry) : Bool :=
  match e.statMtime with
  | none => true
  | some m => decide (m < cutoff) && !e.removeOk

/-! ### Bridge lemmas from `Q` to `ℚ` -/

theorem Q.floorI_eq (a : Q) : a.floorI = ⌊a.toRat⌋ :=
  (Rat.floor_intCast_div_natCast a.num a.den).symm

theorem Q.toRat_add (a b : Q) (ha : 0 < a.den) (hb : 0 < b.den) :
    (a.add b).toRat = a.toRat + b.toRat := by
  have ha' : ((a.den : ℚ)) ≠ 0 := Nat.cast_ne_zero.mpr ha.ne'
  have hb' : ((b.den : ℚ)) ≠ 0 := Nat.cast_ne_zero.mpr hb.ne'
  simp only [Q.toRat, Q.add]
  push_cast
  field_simp
  try ring

theorem Q.toRat_sub (a b : Q) (ha : 0 < a.den) (hb : 0 < b.den) :
    (a.sub b).toRat = a.toRat - b.toRat := by
  have ha' : ((a.den : ℚ)) ≠ 0 := Nat.cast_ne_zero.mpr ha.ne'
  have hb' : ((b.den : ℚ)) ≠ 0 := Nat.cast_ne_zero.mpr hb.ne'
  simp only [Q.toRat, Q.sub]
  push_cast
  field_simp
  try ring

theorem Q.leB_iff (a b : Q) (ha : 0 < a.den) (hb : 0 < b.den) :
    a.leB b = true ↔ a.toRat ≤ b.toRat := by
  have ha' : (0 : ℚ) < (a.den : ℚ) := by exact_mod_cast ha
  have hb' : (0 : ℚ) < (b.den : ℚ) := by exact_mod_cast hb
  simp only [Q.leB, decide_eq_true_iff, Q.toRat]
  rw [div_le_div_iff₀ ha' hb']
  exact_mod_cast Iff.rfl

theorem qone_toRat : qone.toRat = 1 := by norm_num [qone, Q.toRat]

theorem Q.add_qone_den (a : Q) : (a.add qone).den = a.den := by
  simp [Q.add, qone]

theorem Q.toRat_add_qone (a : Q) (ha : 0 < a.den) :
    (a.add qone).toRat = a.toRat + 1 := by
  rw [Q.toRat_add a qone ha (by norm_num [qone]), qone_toRat]

/-! ### `dict.fromkeys` dedup lemmas -/

theorem mem_dkfAux : ∀ (l : List String) (seen : List String) (a : String),
    a ∈ dkfAux seen l ↔ a ∈ l ∧ a ∉ seen := by
  intro l
  induction l with
  | nil => simp [dkfAux]
  | cons x xs ih =>
    intro seen a
    by_cases hx : x ∈ seen
    · rw [dkfAux, if_pos hx]
      simp only [ih, List.mem_cons]
      constructor
      · rintro ⟨hm, hs⟩; exact ⟨Or.inr hm, hs⟩
      · rintro ⟨hm | hm, hs⟩
        · exact absurd (hm ▸ hx) hs
        · exact ⟨hm, hs⟩
    · rw [dkfAux, if_neg hx]
      simp only [List.mem_cons, ih]
      constructor
      · rintro (rfl | ⟨hm, hs⟩)
        · exact ⟨Or.inl rfl, hx⟩
        · exact ⟨Or.inr hm, fun h => hs (Or.inr h)⟩
      · rintro ⟨rfl | hm, hs⟩
        · exact Or.inl rfl
        · by_cases hax : a = x
          · exact Or.inl hax
          · exact Or.inr ⟨hm, fun h => h.elim hax hs⟩

theorem nodup_dkfAux : ∀ (l : List String) (seen : List String),
    (dkfAux seen l).Nodup := by
  intro l
  induction l with
  | nil => simp [dkfAux]
  | cons x xs ih =>
    intro seen
    by_cases hx : x ∈ seen
    · simpa [dkfAux, if_pos hx] using ih seen
    · simp only [dkfAux, if_neg hx, List.nodup_cons]
      refine ⟨fun hmem => ?_, ih _⟩
      rcases (mem_dkfAux xs (x :: seen) x).mp hmem with ⟨-, hs⟩
      exact hs (List.mem_cons_self _ _)

theorem mem_dedupKeepFirst (l : List String) (a : String) :
    a ∈ dedupKeepFirst l ↔ a ∈ l := by
  simp [dedupKeepFirst, mem_dkfAux]

theorem nodup_dedupKeepFirst (l : List String) : (dedupKeepFirst l).Nodup :=
  nodup_dkfAux l []

/-! ### Scan-loop fold lemmas -/

/-- Everything inserted into `done` with latitude in range has had its file
appended: the state invariant of the scan loops. -/
def ScanInv (tp : String) (st : ScanState) : Prop :=
  ∀ c ∈ st.done, c.1.natAbs ≤ 84 → tileFile tp c ∈ st.filelist

theorem scanInv_init (tp : String) : ScanInv tp initState := by
  intro c hc
  simp [initState] at hc

theorem scanInv_step (tp : String) (st : ScanState) (c : Int × Int)
    (h : ScanInv tp st) : ScanInv tp (scanStep tp st c) := by
  by_cases hc : c ∈ st.done
  · simpa [scanStep, hc] using h
  · intro d hd h84
    simp only [scanStep, if_neg hc, List.mem_append, List.mem_singleton] at hd
    rcases hd with hd | rfl
    · by_cases h84c : c.1.natAbs ≤ 84 <;> simp [scanStep, if_neg hc, h84c, h d hd h84]
    · simp [scanStep, if_neg hc, h84]

theorem step_filelist_mem (tp : String) (st : ScanState) (c : Int × Int)
    (p : String) (h : ScanInv tp st) :
    p ∈ (scanStep tp st c).filelist ↔
      p ∈ st.filelist ∨ (c.1.natAbs ≤ 84 ∧ p = tileFile tp c) := by
  by_cases hc : c ∈ st.done
  · simp only [scanStep, if_pos hc]
    exact ⟨Or.inl, fun h2 => h2.elim id fun ⟨h84, hp⟩ => hp ▸ h c hc h84⟩
  · by_cases h84 : c.1.natAbs ≤ 84 <;>
      simp [scanStep, if_neg hc, h84, List.mem_append]

theorem foldl_filelist_mem (tp : String) :
    ∀ (cells : List (Int × Int)) (st : ScanState), ScanInv tp st → ∀ p,
      (p ∈ (cells.foldl (scanStep tp) st).filelist ↔
        p ∈ st.filelist ∨ ∃ c ∈ cells, c.1.natAbs ≤ 84 ∧ p = tileFile tp c) := by
  intro cells
  induction cells with
  | nil => intro st _ p; simp
  | cons c cells ih =>
    intro st h p
    rw [List.foldl_cons, ih _ (scanInv_step tp st c h), step_filelist_mem tp st c p h]
    simp only [List.mem_cons]
    constructor
    · rintro ((hp | ⟨h84, rfl⟩) | ⟨d, hd, h84, rfl⟩)
      · exact Or.inl hp
      · exact Or.inr ⟨c, Or.inl rfl, h84, rfl⟩
      · exact Or.inr ⟨d, Or.inr hd, h84, rfl⟩
    · rintro (hp | ⟨d, rfl | hd, h84, rfl⟩)
      · exact Or.inl (Or.inl hp)
      · exact Or.inl (Or.inr ⟨h84, rfl⟩)
      · exact Or.inr ⟨d, hd, h84, rfl⟩

theorem foldl_done_mem (tp : String) :
    ∀ (cells : List (Int × Int)) (st : ScanState) (c : Int × Int),
      c ∈ (cells.foldl (scanStep tp) st).done ↔ c ∈ st.done ∨ c ∈ cells := by
  intro cells
  induction cells with
  | nil => intro st c; simp
  | cons c0 cells ih =>
    intro st c
    rw [List.foldl_cons, ih]
    by_cases hc0 : c0 ∈ st.done
    · simp only [scanStep, if_pos hc0, List.mem_cons]
      constructor
      · rintro (h | h)
        · exact Or.inl h
        · exact Or.inr (Or.inr h)
      · rintro (h | rfl | h)
        · exact Or.inl h
        · exact Or.inl hc0
        · exact Or.inr h
    · simp only [scanStep, if_neg hc0, List.mem_append, List.mem_singleton,
        List.mem_cons]
      tauto

theorem foldl_done_nodup (tp : String) :
    ∀ (cells : List (Int × Int)) (st : ScanState), st.done.Nodup →
      (cells.foldl (scanStep tp) st).done.Nodup := by
  intro cells
  induction cells with
  | nil => intro st h; simpa using h
  | cons c cells ih =>
    intro st h
    rw [List.foldl_cons]
    apply ih
    by_cases hc : c ∈ st.done
    · simpa [scanStep, hc] using h
    · simp [scanStep, if_neg hc, List.nodup_append, h, hc]

theorem foldl_flag_ne_false (tp : String) :
    ∀ (cells : List (Int × Int)) (st : ScanState), st.outsideLat ≠ some false →
      (cells.foldl (scanStep tp) st).outsideLat ≠ some false := by
  intro cells
  induction cells with
  | nil => intro st h; simpa using h
  | cons c cells ih =>
    intro st h
    rw [List.foldl_cons]
    apply ih
    by_cases hc : c ∈ st.done
    · simpa [scanStep, hc] using h
    · by_cases h84 : c.1.natAbs ≤ 84 <;> simp [scanStep, if_neg hc, h84, h]

theorem foldl_flag_none (tp : String) :
    ∀ (cells : List (Int × Int)) (st : ScanState),
      (∀ c ∈ cells, c.1.natAbs ≤ 84) →
      (cells.foldl (scanStep tp) st).outsideLat = st.outsideLat := by
  intro cells
  induction cells with
  | nil => intro st _; rfl
  | cons c cells ih =>
    intro st h
    rw [List.foldl_cons, ih _ fun d hd => h d (List.mem_cons_of_mem _ hd)]
    by_cases hc : c ∈ st.done
    · simp [scanStep, hc]
    · simp [scanStep, if_neg hc, h c (List.mem_cons_self _ _)]

theorem foldl_flag_true (tp : String) :
    ∀ (cells : List (Int × Int)) (st : ScanState), st.outsideLat = some true →
      (cells.foldl (scanStep tp) st).outsideLat = some true := by
  intro cells
  induction cells with
  | nil => intro st h; simpa using h
  | cons c cells ih =>
    intro st h
    rw [List.foldl_cons]
    apply ih
    by_cases hc : c ∈ st.done
    · simpa [scanStep, hc] using h
    · by_cases h84 : c.1.natAbs ≤ 84 <;> simp [scanStep, if_neg hc, h84, h]

/-- Any out-of-range cell in `done` forces the flag: the second state
invariant of the scan loops. -/
def OutInv (st : ScanState) : Prop :=
  ∀ c ∈ st.done, 84 < c.1.natAbs → st.outsideLat = some true

theorem outInv_init : OutInv initState := by
  intro c hc
  simp [initState] at hc

theorem outInv_step (tp : String) (st : ScanState) (c : Int × Int)
    (h : OutInv st) : OutInv (scanStep tp st c) := by
  by_cases hc : c ∈ st.done
  · simpa [scanStep, hc] using h
  · intro d hd h84
    simp only [scanStep, if_neg hc, List.mem_append, List.mem_singleton] at hd
    rcases hd with hd | rfl
    · by_cases h84c : c.1.natAbs ≤ 84 <;> simp [scanStep, if_neg hc, h84c, h d hd h84]
    · simp only [scanStep, if_neg hc]
      rw [if_neg (by omega)]

theorem foldl_flag_out (tp : String) :
    ∀ (cells : List (Int × Int)) (st : ScanState) (c : Int × Int), OutInv st →
      c ∈ cells → 84 < c.1.natAbs →
      (cells.foldl (scanStep tp) st).outsideLat = some true := by
  intro cells
  induction cells with
  | nil => intro st c _ hc; simp at hc
  | cons c0 cells ih =>
    intro st c hinv hc h84
    rw [List.foldl_cons]
    rcases List.mem_cons.mp hc with rfl | hc
    · apply foldl_flag_true
      by_cases hc0 : c ∈ st.done
      · simpa [scanStep, hc0] using hinv c hc0 h84
      · simp only [scanStep, if_neg hc0]
        rw [if_neg (by omega)]
    · exact ih _ c (outInv_step tp st c0 hinv) hc h84

theorem foldl_filelist_all_out (tp : String) :
    ∀ (cells : List (Int × Int)) (st : ScanState),
      (∀ c ∈ cells, 84 < c.1.natAbs) →
      (cells.foldl (scanStep tp) st).filelist = st.filelist := by
  intro cells
  induction cells with
  | nil => intro st _; rfl
  | cons c cells ih =>
    intro st h
    rw [List.foldl_cons, ih _ fun d hd => h d (List.mem_cons_of_mem _ hd)]
    by_cases hc : c ∈ st.done
    · simp [scanStep, hc]
    · simp only [scanStep, if_neg hc]
      rw [if_neg (by have := h c (List.mem_cons_self _ _); omega)]

/-! ### Characterization of the rectangle scan's loop values -/

theorem scanValsAux_map_floorI :
    ∀ (fuel : Nat) (lo hi : Q), 0 < lo.den → 0 < hi.den →
      (⌊hi.toRat - lo.toRat⌋ + 1).toNat ≤ fuel →
      (scanValsAux fuel lo hi).map Q.floorI =
        (List.range (⌊hi.toRat - lo.toRat⌋ + 1).toNat).map
          (fun k : Nat => ⌊lo.toRat⌋ + (k : Int)) := by
  intro fuel
  induction fuel with
  | zero =>
    intro lo hi hlo hhi hfuel
    rw [Nat.le_zero.mp hfuel]
    simp [scanValsAux]
  | succ fuel ih =>
    intro lo hi hlo hhi hfuel
    rw [scanValsAux]
    by_cases hle : lo.toRat ≤ hi.toRat
    · rw [if_pos ((Q.leB_iff lo hi hlo hhi).mpr hle)]
      have hd : 0 < (lo.add qone).den := by rw [Q.add_qone_den]; exact hlo
      have hsub : hi.toRat - (lo.add qone).toRat = hi.toRat - lo.toRat - 1 := by
        rw [Q.toRat_add_qone lo hlo]; ring
      have hfl2 : ⌊hi.toRat - (lo.add qone).toRat⌋ = ⌊hi.toRat - lo.toRat⌋ - 1 := by
        rw [hsub, Int.floor_sub_one]
      have hfl : 0 ≤ ⌊hi.toRat - lo.toRat⌋ := Int.le_floor.mpr (by push_cast; linarith)
      have hfuel2 : (⌊hi.toRat - (lo.add qone).toRat⌋ + 1).toNat ≤ fuel := by
        rw [hfl2]; omega
      rw [List.map_cons, ih (lo.add qone) hi hd hhi hfuel2]
      have hN : (⌊hi.toRat - lo.toRat⌋ + 1).toNat
          = (⌊hi.toRat - (lo.add qone).toRat⌋ + 1).toNat + 1 := by rw [hfl2]; omega
      rw [hN, List.range_succ_eq_map, List.map_cons, List.map_map]
      have hfun : (fun k : ℕ => ⌊(lo.add qone).toRat⌋ + (k : ℤ)) =
          ((fun k : ℕ => ⌊lo.toRat⌋ + (k : ℤ)) ∘ Nat.succ) := by
        funext k
        simp only [Function.comp_apply]
        rw [Q.toRat_add_qone lo hlo, Int.floor_add_one]
        push_cast
        ring
      rw [hfun]
      rw [Q.floorI_eq]
      norm_num
    · rw [if_neg fun h => hle ((Q.leB_iff lo hi hlo hhi).mp h)]
      have : ⌊hi.toRat - lo.toRat⌋ < 0 := Int.floor_lt.mpr (by push_cast; linarith)
      have h0 : (⌊hi.toRat - lo.toRat⌋ + 1).toNat = 0 := by omega
      rw [h0]
      simp

theorem scanVals_map_floorI (lo hi : Q) (hlo : 0 < lo.den) (hhi : 0 < hi.den) :
    (scanVals lo hi).map Q.floorI =
      (List.range (⌊hi.toRat - lo.toRat⌋ + 1).toNat).map
        (fun k : Nat => ⌊lo.toRat⌋ + (k : Int)) := by
  apply scanValsAux_map_floorI _ lo hi hlo hhi
  apply le_of_eq
  rw [Q.floorI_eq, Q.toRat_sub hi lo hhi hlo]

theorem mem_scanVals_floorI (lo hi : Q) (hlo : 0 < lo.den) (hhi : 0 < hi.den)
    (hle : lo.toRat ≤ hi.toRat) (x : Int) :
    (∃ q ∈ scanVals lo hi, Q.floorI q = x) ↔
      ⌊lo.toRat⌋ ≤ x ∧ x ≤ ⌊lo.toRat⌋ + ⌊hi.toRat - lo.toRat⌋ := by
  have hmap : x ∈ (scanVals lo hi).map Q.floorI ↔ ∃ q ∈ scanVals lo hi, Q.floorI q = x :=
    List.mem_map
  rw [← hmap, scanVals_map_floorI lo hi hlo hhi]
  simp only [List.mem_map, List.mem_range]
  have h0 : 0 ≤ ⌊hi.toRat - lo.toRat⌋ := Int.le_floor.mpr (by push_cast; linarith)
  constructor
  · rintro ⟨k, hk, rfl⟩
    omega
  · rintro ⟨h1, h2⟩
    exact ⟨(x - ⌊lo.toRat⌋).toNat, by omega, by omega⟩

theorem mem_rectCells (a b c d : Q)
    (ha : 0 < a.den) (hb : 0 < b.den) (hc : 0 < c.den) (hd : 0 < d.den)
    (h1 : a.toRat ≤ b.toRat) (h2 : c.toRat ≤ d.toRat) (la lo : Int) :
    (la, lo) ∈ rectCells a b c d ↔
      (⌊a.toRat⌋ ≤ la ∧ la ≤ ⌊a.toRat⌋ + ⌊b.toRat - a.toRat⌋) ∧
      (⌊c.toRat⌋ ≤ lo ∧ lo ≤ ⌊c.toRat⌋ + ⌊d.toRat - c.toRat⌋) := by
  rw [← mem_scanVals_floorI a b ha hb h1 la, ← mem_scanVals_floorI c d hc hd h2 lo]
  simp only [rectCells, List.mem_flatMap, List.mem_map, Prod.mk.injEq]
  constructor
  · rintro ⟨q, hq, r, hr, hla, hlo⟩
    exact ⟨⟨q, hq, hla⟩, ⟨r, hr, hlo⟩⟩
  · rintro ⟨⟨q, hq, hla⟩, ⟨r, hr, hlo⟩⟩
    exact ⟨q, hq, r, hr, hla, hlo⟩

theorem mem_rectFileList (tp : String) (a b c d : Q) (p : String) :
    p ∈ rectFileList tp a b c d ↔
      ∃ cell ∈ rectCells a b c d, cell.1.natAbs ≤ 84 ∧ p = tileFile tp cell := by
  rw [rectFileList, mem_dedupKeepFirst, runScan,
    foldl_filelist_mem tp (rectCells a b c d) initState (scanInv_init tp) p]
  simp [initState]

theorem mem_circleFileList (tp : String) (off : Q → Q → Q → Q → Q × Q)
    (lat lon : Q) (radius : Int) (p : String) :
    p ∈ circleFileList tp off lat lon radius ↔
      ∃ cell ∈ circleCells off lat lon radius, cell.1.natAbs ≤ 84 ∧
        p = tileFile tp cell := by
  rw [circleFileList, mem_dedupKeepFirst, runScan,
    foldl_filelist_mem tp (circleCells off lat lon radius) initState (scanInv_init tp) p]
  simp [initState]

/-! ### Build-loop lemmas -/

theorem buildLoop_spec (origin : Option (String → Option TileBytes)) :
    ∀ (fl : List String) (loc : Store) (acc : List (String × String)),
      (buildLoop origin loc acc fl).zipOnDisk = some (buildLoop origin loc acc fl).entries ∧
      ((buildLoop origin loc acc fl).success = true →
        (buildLoop origin loc acc fl).entries.length = acc.length + fl.length) ∧
      ((buildLoop origin loc acc fl).success = false →
        (buildLoop origin loc acc fl).entries.length < acc.length + fl.length) := by
  intro fl
  induction fl with
  | nil =>
    intro loc acc
    refine ⟨rfl, fun _ => rfl, fun h => ?_⟩
    simp [buildLoop] at h
  | cons fn rest ih =>
    intro loc acc
    cases htile : tileStep origin loc fn with
    | ok loc2 dl nm data =>
      simp only [buildLoop, htile]
      refine ⟨(ih loc2 (acc ++ [(nm, data)])).1, fun h => ?_, fun h => ?_⟩
      · have := (ih loc2 (acc ++ [(nm, data)])).2.1 h
        simp only [List.length_append, List.length_cons, List.length_nil] at this ⊢
        omega
      · have := (ih loc2 (acc ++ [(nm, data)])).2.2 h
        simp only [List.length_append, List.length_cons, List.length_nil] at this ⊢
        omega
    | err loc2 =>
      refine ⟨?_, ?_, ?_⟩
      · simp [buildLoop, htile]
      · intro h; simp [buildLoop, htile] at h
      · intro _; simp only [buildLoop, htile, List.length_cons]; omega

/-! ### Sweep lemmas -/

theorem sweepLoop_fail_head (cutoff : Int) (e : DirEntry) (rest : List DirEntry)
    (hf : entryFails cutoff e = true) : sweepLoop cutoff (e :: rest) = none := by
  cases hm : e.statMtime with
  | none => simp [sweepLoop, hm]
  | some m =>
    simp only [entryFails, hm, Bool.and_eq_true, decide_eq_true_iff,
      Bool.not_eq_true'] at hf
    simp [sweepLoop, hm, hf.1, hf.2]

/-! ### Empty-scan helpers -/

theorem scanValsAux_nil (fuel : Nat) (lo hi : Q) (h : lo.leB hi = false) :
    scanValsAux fuel lo hi = [] := by
  cases fuel <;> simp [scanValsAux, h]

theorem scanVals_nil (lo hi : Q) (hlo : 0 < lo.den) (hhi : 0 < hi.den)
    (h : hi.toRat < lo.toRat) : scanVals lo hi = [] := by
  apply scanValsAux_nil
  cases hleB : lo.leB hi
  · rfl
  · exact absurd ((Q.leB_iff lo hi hlo hhi).mp hleB) (not_le.mpr h)

/-! ### Zero-padded formatting lengths -/

set_option maxRecDepth 4000 in
theorem padNum_two_length : ∀ n : Nat, n < 100 → (padNum 2 n).length = 2 := by decide

set_option maxRecDepth 40000 in
theorem padNum_three_length : ∀ n : Nat, n < 1000 → (padNum 3 n).length = 3 := by decide

/-- A local tile directory holding exactly one (valid) tile file, for the
idempotence witness. -/
def presentStore : Store :=
  fun n => if n = "T/N00E000.DAT.gz" then some ⟨true, "x"⟩ else none

/-! ### Claim theorems -/

/-- C1 (counterexample): for the Rectangle request `minLat = 0.5, maxLat = 1,
minLon = 0, maxLon = 1` (bounds satisfy `min ≤ max`, indeed `min < max`), the
integer degree cell `(1, 0)` lies in
`[⌊minLat⌋, ⌊maxLat⌋] × [⌊minLon⌋, ⌊maxLon⌋] = [0,1] × [0,1]` and has
`|lat| ≤ 84`, yet the resolved tile set contains no entry for it: the
1.0-degree scan starting at `0.5` never reaches latitude `⌊maxLat⌋ = 1`, so
the scan is not inclusive of the max endpoint as claimed. -/
theorem rect_claim_counterexample :
    Q.toRat ⟨1, 2⟩ ≤ Q.toRat ⟨1, 1⟩ ∧ Q.toRat ⟨0, 1⟩ ≤ Q.toRat ⟨1, 1⟩ ∧
    ⌊Q.toRat ⟨1, 2⟩⌋ ≤ (1 : Int) ∧ (1 : Int) ≤ ⌊Q.toRat ⟨1, 1⟩⌋ ∧
    ⌊Q.toRat ⟨0, 1⟩⌋ ≤ (0 : Int) ∧ (0 : Int) ≤ ⌊Q.toRat ⟨1, 1⟩⌋ ∧
    (1 : Int).natAbs ≤ 84 ∧
    (rectFileList "T" ⟨1, 2⟩ ⟨1, 1⟩ ⟨0, 1⟩ ⟨1, 1⟩).count (tileFile "T" (1, 0)) = 0 := by
  refine ⟨by norm_num [Q.toRat], by norm_num [Q.toRat], ?_, ?_, ?_, ?_, by decide, by decide⟩ <;>
    rw [← Q.floorI_eq] <;> decide

/-- C1 (amended): for every Rectangle request with `minLat ≤ maxLat` and
`minLon ≤ maxLon`, the resolved tile set contains exactly one entry per
integer degree cell in
`[⌊minLat⌋, ⌊minLat⌋ + ⌊maxLat - minLat⌋] × [⌊minLon⌋, ⌊minLon⌋ + ⌊maxLon - minLon⌋]`
whose latitude magnitude is at most 84, contains nothing else, and has no
duplicates.  (The upper end equals `⌊max⌋` exactly when the fractional part of
`max` is at least that of `min`; the scan is inclusive of the min endpoint but
not, in general, of `⌊max⌋`.) -/
theorem rect_coverage_amended (tp : String) (a b c d : Q)
    (ha : 0 < a.den) (hb : 0 < b.den) (hc : 0 < c.den) (hd : 0 < d.den)
    (h1 : a.toRat ≤ b.toRat) (h2 : c.toRat ≤ d.toRat) :
    (rectFileList tp a b c d).Nodup ∧
    (∀ la lo : Int,
      ⌊a.toRat⌋ ≤ la → la ≤ ⌊a.toRat⌋ + ⌊b.toRat - a.toRat⌋ →
      ⌊c.toRat⌋ ≤ lo → lo ≤ ⌊c.toRat⌋ + ⌊d.toRat - c.toRat⌋ →
      la.natAbs ≤ 84 →
      (rectFileList tp a b c d).count (tileFile tp (la, lo)) = 1) ∧
    (∀ p ∈ rectFileList tp a b c d, ∃ la lo : Int,
      ⌊a.toRat⌋ ≤ la ∧ la ≤ ⌊a.toRat⌋ + ⌊b.toRat - a.toRat⌋ ∧
      ⌊c.toRat⌋ ≤ lo ∧ lo ≤ ⌊c.toRat⌋ + ⌊d.toRat - c.toRat⌋ ∧
      la.natAbs ≤ 84 ∧ p = tileFile tp (la, lo)) := by
  have hnodup : (rectFileList tp a b c d).Nodup :=
    nodup_dedupKeepFirst (runScan tp (rectCells a b c d)).filelist
  refine ⟨hnodup, fun la lo hla1 hla2 hlo1 hlo2 h84 => ?_, fun p hp => ?_⟩
  · apply List.count_eq_one_of_mem hnodup
    rw [mem_rectFileList]
    exact ⟨(la, lo),
      (mem_rectCells a b c d ha hb hc hd h1 h2 la lo).mpr ⟨⟨hla1, hla2⟩, hlo1, hlo2⟩,
      h84, rfl⟩
  · rw [mem_rectFileList] at hp
    obtain ⟨⟨la, lo⟩, hcell, h84, rfl⟩ := hp
    obtain ⟨⟨u1, u2⟩, v1, v2⟩ := (mem_rectCells a b c d ha hb hc hd h1 h2 la lo).mp hcell
    exact ⟨la, lo, u1, u2, v1, v2, h84, rfl⟩

/-- C1 (witness): the amended coverage theorem applied to the unit rectangle
`[0,1] × [0,1]`. -/
theorem rect_coverage_amended_witness :
    (0 < (⟨0, 1⟩ : Q).den ∧ Q.toRat ⟨0, 1⟩ ≤ Q.toRat ⟨1, 1⟩) ∧
    (rectFileList "T" ⟨0, 1⟩ ⟨1, 1⟩ ⟨0, 1⟩ ⟨1, 1⟩).Nodup :=
  ⟨⟨by decide, by norm_num [Q.toRat]⟩,
    (rect_coverage_amended "T" ⟨0, 1⟩ ⟨1, 1⟩ ⟨0, 1⟩ ⟨1, 1⟩
      (by decide) (by decide) (by decide) (by decide)
      (by norm_num [Q.toRat]) (by norm_num [Q.toRat])).1⟩

/-- C2 (counterexample): with no origin configured and an empty tile
directory, building from one tile fails (`success = false`) but the
destination archive file is still on disk after the call, refuting "no
partial archive is left on disk". -/
theorem build_failure_counterexample :
    ¬ ((compressFiles none emptyStore ["T/N00E000.DAT.gz"]).success = false →
       (compressFiles none emptyStore ["T/N00E000.DAT.gz"]).zipOnDisk = none) := by
  intro h
  exact absurd (h (by decide)) (by decide)

/-- C2 (amended): if any tile fails to resolve or decompress, the whole build
fails (`compressFiles` returns `False`, with strictly fewer entries written
than tiles requested), but the partially written destination archive is left
on disk: the zip file created at the start of the build — holding exactly the
entries written before the failure — is never removed. -/
theorem build_failure_partial_archive (origin : Option (String → Option TileBytes))
    (loc : Store) (fl : List String) :
    (compressFiles origin loc fl).zipOnDisk = some (compressFiles origin loc fl).entries ∧
    ((compressFiles origin loc fl).success = true ↔
      (compressFiles origin loc fl).entries.length = fl.length) ∧
    ((compressFiles origin loc fl).success = false →
      (compressFiles origin loc fl).entries.length < fl.length) := by
  simp only [compressFiles]
  have h := buildLoop_spec origin fl loc []
  refine ⟨h.1, ⟨fun hs => by simpa using h.2.1 hs, fun hlen => ?_⟩,
    fun hs => by simpa using h.2.2 hs⟩
  cases hsuc : (buildLoop origin loc [] fl).success
  · have := h.2.2 hsuc
    simp only [List.length_nil, Nat.zero_add] at this
    omega
  · rfl

/-- C2 (witness): the amended theorem applied to a failing one-tile build. -/
theorem build_failure_partial_archive_witness :
    (compressFiles none emptyStore ["T/N00E000.DAT.gz"]).success = false ∧
    (compressFiles none emptyStore ["T/N00E000.DAT.gz"]).entries.length < 1 :=
  ⟨by decide,
    by
      have h :=
        (build_failure_partial_archive none emptyStore ["T/N00E000.DAT.gz"]).2.2 (by decide)
      simpa using h⟩

/-- C3 (counterexample): a sweep pass over two entries where `os.stat` raises
on the first (it vanished between listing and deletion) aborts with the
exception (`none`) instead of continuing; the second entry, which a
continuing sweep would have deleted, is left unprocessed. -/
theorem sweep_abort_counterexample :
    entryFails 100 ⟨"a", none, true⟩ = true ∧
    sweepLoop 100 [⟨"a", none, true⟩, ⟨"b", some 0, true⟩] = none ∧
    sweepLoop 100 [⟨"b", some 0, true⟩] = some ["b"] := by
  refine ⟨by decide, by decide, by decide⟩

/-- C3 (amended): a per-entry filesystem failure during the sweep is not
swallowed: the body of the cleanup loop has no exception handler, so the first
entry whose `os.stat` or `os.remove` raises aborts the sweep (the remaining
entries are not visited) and the exception propagates out of the cleanup loop
into the enclosing generate call's catch-all handler. -/
theorem sweep_aborts_on_entry_failure (cutoff : Int) :
    ∀ (pre : List DirEntry) (e : DirEntry) (rest : List DirEntry),
      entryFails cutoff e = true → (∀ p ∈ pre, entryFails cutoff p = false) →
      sweepLoop cutoff (pre ++ e :: rest) = none := by
  intro pre
  induction pre with
  | nil =>
    intro e rest hf _
    simpa using sweepLoop_fail_head cutoff e rest hf
  | cons p pre ih =>
    intro e rest hf hpre
    have hp := hpre p (List.mem_cons_self _ _)
    have hrest := ih e rest hf fun q hq => hpre q (List.mem_cons_of_mem _ hq)
    cases hm : p.statMtime with
    | none => simp [entryFails, hm] at hp
    | some m =>
      simp only [entryFails, hm, Bool.and_eq_true, decide_eq_true_iff,
        Bool.not_eq_true', Bool.and_eq_false_iff, decide_eq_false_iff_not] at hp
      rw [List.cons_append]
      by_cases hcut : m < cutoff
      · have hrem : p.removeOk = true := by
          rcases hp with h | h
          · exact absurd hcut h
          · simpa using h
        simp [sweepLoop, hm, hcut, hrem, hrest]
      · simp [sweepLoop, hm, hcut, hrest]

/-- C3 (witness): the amended sweep-abort theorem applied to a concrete
three-entry listing whose second entry's `os.stat` raises. -/
theorem sweep_aborts_witness :
    sweepLoop 100 [⟨"c", some 200, true⟩, ⟨"a", none, true⟩, ⟨"b", some 0, true⟩] = none :=
  sweep_aborts_on_entry_failure 100 [⟨"c", some 200, true⟩] ⟨"a", none, true⟩
    [⟨"b", some 0, true⟩] (by decide) (by decide)

/-- C4 (counterexample): the cache-miss download branch performs no rename at
all — there is no temporary path renamed onto the tile's local path — so the
claimed atomic temp-file-then-rename write pattern is absent, at the concrete
tile filename `N00E000.DAT.gz`. -/
theorem download_not_atomic_counterexample : ¬ atomicViaTemp "N00E000.DAT.gz" := by
  rintro ⟨tmp, -, hm⟩
  simp [downloadOps] at hm

/-- C4 (amended): on a cache miss the downloaded bytes are written directly to
the tile's local path — `open(fn, 'b+w')` truncate-creates the final path and
the bytes are then written into it, with no temporary path and no rename — so
between the open and the completed write the tile path exists holding content
other than the downloaded bytes, and a concurrent resolver checking existence
can observe a partially-written tile as present. -/
theorem download_direct_write (loc : Store) (fn : String) (b : TileBytes)
    (hb : b ≠ ⟨false, ""⟩) :
    (∀ s d, FsOp.rename s d ∉ downloadOps fn) ∧
    (∃ st ∈ midDownloadStates loc fn b, (st fn).isSome = true ∧ st fn ≠ some b) ∧
    (midDownloadStates loc fn b).getLast? = some (setStore loc fn b) := by
  refine ⟨fun s d hm => by simp [downloadOps] at hm,
    ⟨setStore loc fn ⟨false, ""⟩, by simp [midDownloadStates], ?_, ?_⟩, rfl⟩
  · simp [setStore]
  · intro h
    simp only [setStore, if_pos rfl] at h
    exact hb (Option.some.inj h).symm

/-- C4 (witness): the direct-write theorem applied to a concrete download of
nonempty valid bytes into an empty tile directory. -/
theorem download_direct_write_witness :
    (⟨true, "x"⟩ : TileBytes) ≠ ⟨false, ""⟩ ∧
    (∃ st ∈ midDownloadStates emptyStore "a" ⟨true, "x"⟩,
      (st "a").isSome = true ∧ st "a" ≠ some ⟨true, "x"⟩) :=
  ⟨by decide, (download_direct_write emptyStore "a" ⟨true, "x"⟩ (by decide)).2.1⟩

/-- In a duplicate-free list, every member appears exactly once (counting with
the product `BEq` instance used by the claim statements below). -/
theorem count_pair_eq_one :
    ∀ {l : List (Int × Int)} {c : Int × Int}, l.Nodup → c ∈ l → l.count c = 1 := by
  intro l
  induction l with
  | nil => intro c _ hmem; simp at hmem
  | cons x xs ih =>
    intro c hnd hmem
    rcases List.mem_cons.mp hmem with rfl | hmem2
    · rw [List.count_cons_self]
      have h0 : xs.count c = 0 := List.count_eq_zero.mpr (List.nodup_cons.mp hnd).1
      omega
    · have hx : c ≠ x := fun h => (List.nodup_cons.mp hnd).1 (h ▸ hmem2)
      rw [List.count_cons_of_ne hx]
      exact ih (List.nodup_cons.mp hnd).2 hmem2

/-- C5 (confirmed): for every Circle request — any center, radius, and opaque
offset function — the dedup set receives each produced `(latInt, lonInt)` pair
exactly once (`done` has no duplicates and counts each produced cell once),
and the final resolved file list has no duplicate entries. -/
theorem circle_dedup (tp : String) (off : Q → Q → Q → Q → Q × Q)
    (lat lon : Q) (radius : Int) :
    (runScan tp (circleCells off lat lon radius)).done.Nodup ∧
    (∀ c ∈ circleCells off lat lon radius,
      (runScan tp (circleCells off lat lon radius)).done.count c = 1) ∧
    (circleFileList tp off lat lon radius).Nodup := by
  have hnd : (runScan tp (circleCells off lat lon radius)).done.Nodup :=
    foldl_done_nodup tp _ initState (by simp [initState])
  refine ⟨hnd, fun c hc => ?_, nodup_dedupKeepFirst _⟩
  have hmem : c ∈ (runScan tp (circleCells off lat lon radius)).done :=
    (foldl_done_mem tp _ initState c).mpr (Or.inr hc)
  exact count_pair_eq_one hnd hmem

/-- C5 (witness): the dedup theorem applied to a radius-1 circle at the
origin with an offset function that ignores its displacement (all four scan
offsets collapse onto the cell `(0, 0)`). -/
theorem circle_dedup_witness :
    (0, 0) ∈ circleCells (fun a b _ _ => (a, b)) ⟨0, 1⟩ ⟨0, 1⟩ 1 ∧
    (runScan "T" (circleCells (fun a b _ _ => (a, b)) ⟨0, 1⟩ ⟨0, 1⟩ 1)).done.count (0, 0) = 1 :=
  ⟨by decide,
    (circle_dedup "T" (fun a b _ _ => (a, b)) ⟨0, 1⟩ ⟨0, 1⟩ 1).2.1 (0, 0) (by decide)⟩

/-- C6 (confirmed): for every Circle request (radius at least 1, as validated
at the boundary) all of whose scanned cells lie strictly outside the ±84°
latitude limit, the resolved tile set is empty, the outside-latitude flag is
`True`, and the build still succeeds, producing a validly formed zero-entry
archive. -/
theorem fully_outside_empty_success (tp : String) (off : Q → Q → Q → Q → Q × Q)
    (lat lon : Q) (radius : Int)
    (origin : Option (String → Option TileBytes)) (loc : Store)
    (hr : 1 ≤ radius)
    (hout : ∀ c ∈ circleCells off lat lon radius, 84 < c.1.natAbs) :
    circleFileList tp off lat lon radius = [] ∧
    (runScan tp (circleCells off lat lon radius)).outsideLat = some true ∧
    (compressFiles origin loc (circleFileList tp off lat lon radius)).success = true ∧
    (compressFiles origin loc (circleFileList tp off lat lon radius)).entries = [] ∧
    (compressFiles origin loc (circleFileList tp off lat lon radius)).zipOnDisk = some [] := by
  have hfl : circleFileList tp off lat lon radius = [] := by
    rw [circleFileList, runScan, foldl_filelist_all_out tp _ initState hout]
    rfl
  have hdx : (-radius) ∈ rangeInts (-radius) radius := by
    simp only [rangeInts, List.mem_map, List.mem_range]
    refine ⟨0, ?_, by simp⟩
    omega
  have hcell : ∃ c, c ∈ circleCells off lat lon radius :=
    ⟨_, List.mem_flatMap.mpr ⟨-radius, hdx, List.mem_map.mpr ⟨-radius, hdx, rfl⟩⟩⟩
  obtain ⟨c, hc⟩ := hcell
  refine ⟨hfl, foldl_flag_out tp _ initState c outInv_init hc (hout c hc), ?_, ?_, ?_⟩ <;>
    rw [hfl] <;> rfl

/-- C6 (witness): a radius-1 request centered at latitude 89° with an offset
function that ignores its displacement: every scanned cell is `(89, 0)`,
outside the limit. -/
theorem fully_outside_witness :
    (∀ c ∈ circleCells (fun a b _ _ => (a, b)) ⟨89, 1⟩ ⟨0, 1⟩ 1, 84 < c.1.natAbs) ∧
    circleFileList "T" (fun a b _ _ => (a, b)) ⟨89, 1⟩ ⟨0, 1⟩ 1 = [] ∧
    (runScan "T" (circleCells (fun a b _ _ => (a, b)) ⟨89, 1⟩ ⟨0, 1⟩ 1)).outsideLat =
      some true :=
  ⟨by decide,
    (fully_outside_empty_success "T" (fun a b _ _ => (a, b)) ⟨89, 1⟩ ⟨0, 1⟩ 1 none emptyStore
      (by decide) (by decide)).1,
    (fully_outside_empty_success "T" (fun a b _ _ => (a, b)) ⟨89, 1⟩ ⟨0, 1⟩ 1 none emptyStore
      (by decide) (by decide)).2.1⟩

/-- C7 (confirmed): for all integer `(lat, lon)` with `|lat| ≤ 99` and
`|lon| ≤ 999`, `getDatFile` is a total pure function whose hemisphere letters
match the sign of the inputs (`N` for `lat ≥ 0` else `S`; `E` for `lon ≥ 0`
else `W`), whose magnitudes (clamped to `min(|lat|, 99)` and
`min(|lon|, 999)`, the identity under these bounds) render as exactly two and
three digits, with the fixed `.DAT.gz` suffix. -/
theorem tileNamer_format (lat lon : Int) (hla : lat.natAbs ≤ 99) (hlo : lon.natAbs ≤ 999) :
    getDatFile lat lon =
      (if 0 ≤ lat then "N" else "S") ++ padNum 2 lat.natAbs ++
      (if 0 ≤ lon then "E" else "W") ++ padNum 3 lon.natAbs ++ ".DAT.gz" ∧
    (padNum 2 lat.natAbs).length = 2 ∧ (padNum 3 lon.natAbs).length = 3 := by
  have h1 : min lat.natAbs 99 = lat.natAbs := Nat.min_eq_left hla
  have h2 : min lon.natAbs 999 = lon.natAbs := Nat.min_eq_left hlo
  have hNS : (if lat < 0 then "S" else "N") = (if 0 ≤ lat then "N" else "S") := by
    rcases lt_or_le lat 0 with h | h
    · rw [if_pos h, if_neg (not_le.mpr h)]
    · rw [if_neg (not_lt.mpr h), if_pos h]
  have hEW : (if lon < 0 then "W" else "E") = (if 0 ≤ lon then "E" else "W") := by
    rcases lt_or_le lon 0 with h | h
    · rw [if_pos h, if_neg (not_le.mpr h)]
    · rw [if_neg (not_lt.mpr h), if_pos h]
  exact ⟨by rw [getDatFile, h1, h2, hNS, hEW],
    padNum_two_length _ (by omega), padNum_three_length _ (by omega)⟩

/-- C7 (witness): the naming theorem applied at `(-5, 123)`. -/
theorem tileNamer_format_witness :
    (-5 : Int).natAbs ≤ 99 ∧ (123 : Int).natAbs ≤ 999 ∧
    (padNum 2 (-5 : Int).natAbs).length = 2 :=
  ⟨by decide, by decide, (tileNamer_format (-5) 123 (by decide) (by decide)).2.1⟩

/-- C8 (confirmed): resolving a tile whose local file is present never
contacts the remote origin (the outcome is identical to resolving with no
origin configured), never rewrites the tile directory, and reports no
download; and the download branch runs only when the local file is absent and
an origin is configured. -/
theorem resolve_idempotent (origin : Option (String → Option TileBytes))
    (loc : Store) (fn : String) :
    ((loc fn).isSome = true →
      tileStep origin loc fn = tileStep none loc fn ∧
      (tileStep origin loc fn).store = loc ∧
      (tileStep origin loc fn).downloaded = false) ∧
    ((tileStep origin loc fn).downloaded = true →
      loc fn = none ∧ origin.isSome = true) := by
  cases hl : loc fn with
  | some b =>
    constructor
    · intro _
      refine ⟨by simp [tileStep, hl], ?_, ?_⟩ <;>
        by_cases hg : b.gzOk <;>
          simp [tileStep, hl, hg, StepOut.store, StepOut.downloaded]
    · intro hd
      by_cases hg : b.gzOk <;>
        simp [tileStep, hl, hg, StepOut.downloaded] at hd
  | none =>
    constructor
    · intro h
      simp [hl] at h
    · intro hd
      cases origin with
      | none => simp [tileStep, hl, StepOut.downloaded] at hd
      | some o =>
        cases ho : o (basename fn) with
        | none => simp [tileStep, hl, ho, StepOut.downloaded] at hd
        | some b =>
          by_cases hg : b.gzOk
          · exact ⟨rfl, rfl⟩
          · simp [tileStep, hl, ho, hg, StepOut.downloaded] at hd

/-- C8 (witness): the idempotence theorem applied to a directory already
holding the tile, with an origin configured that would serve different
bytes. -/
theorem resolve_idempotent_witness :
    (presentStore "T/N00E000.DAT.gz").isSome = true ∧
    (tileStep (some fun _ => some ⟨true, "y"⟩) presentStore "T/N00E000.DAT.gz").downloaded
      = false :=
  ⟨by decide,
    ((resolve_idempotent (some fun _ => some ⟨true, "y"⟩) presentStore
      "T/N00E000.DAT.gz").1 (by decide)).2.2⟩

/-- C9 (confirmed): degenerate area requests produce an empty tile set rather
than failing: a Circle with `radius ≤ 0` scans no offsets and resolves no
files, and a Rectangle with inverted bounds (min above max on either axis)
resolves no files. -/
theorem degenerate_inputs_empty (tp : String) (off : Q → Q → Q → Q → Q × Q)
    (lat lon : Q) (radius : Int) (a b c d : Q)
    (ha : 0 < a.den) (hb : 0 < b.den) (hc : 0 < c.den) (hd : 0 < d.den) :
    (radius ≤ 0 →
      circleCells off lat lon radius = [] ∧ circleFileList tp off lat lon radius = []) ∧
    (b.toRat < a.toRat ∨ d.toRat < c.toRat → rectFileList tp a b c d = []) := by
  constructor
  · intro hrad
    have hrange : rangeInts (-radius) radius = [] := by
      simp only [rangeInts]
      have h0 : (radius - -radius).toNat = 0 := by omega
      rw [h0]
      rfl
    have hcells : circleCells off lat lon radius = [] := by
      simp [circleCells, hrange]
    exact ⟨hcells, by rw [circleFileList, hcells]; rfl⟩
  · intro hinv
    have hempty : rectCells a b c d = [] := by
      rcases hinv with h | h
      · rw [rectCells, scanVals_nil a b ha hb h]
        rfl
      · rw [rectCells, scanVals_nil c d hc hd h]
        simp
    rw [rectFileList, hempty]
    rfl

/-- C9 (witness): the degenerate-input theorem applied to a radius-0 circle
and the inverted rectangle `minLat = 1 > maxLat = 0`. -/
theorem degenerate_inputs_witness :
    circleFileList "T" (fun a b _ _ => (a, b)) ⟨0, 1⟩ ⟨0, 1⟩ 0 = [] ∧
    rectFileList "T" ⟨1, 1⟩ ⟨0, 1⟩ ⟨0, 1⟩ ⟨1, 1⟩ = [] :=
  ⟨((degenerate_inputs_empty "T" (fun a b _ _ => (a, b)) ⟨0, 1⟩ ⟨0, 1⟩ 0
      ⟨1, 1⟩ ⟨0, 1⟩ ⟨0, 1⟩ ⟨1, 1⟩ (by decide) (by decide) (by decide) (by decide)).1
      (by decide)).2,
    (degenerate_inputs_empty "T" (fun a b _ _ => (a, b)) ⟨0, 1⟩ ⟨0, 1⟩ 0
      ⟨1, 1⟩ ⟨0, 1⟩ ⟨0, 1⟩ ⟨1, 1⟩ (by decide) (by decide) (by decide) (by decide)).2
      (Or.inl (by norm_num [Q.toRat]))⟩

/-- C10 (confirmed): the outside-latitude flag of the circle scan is only ever
`None` or `True` (never an explicit `False`), and when every scanned cell is
within the ±84° limit the response carries `None` — so callers cannot
distinguish "checked and all in range" from "flag not set". -/
theorem outside_flag_never_false (tp : String) (off : Q → Q → Q → Q → Q × Q)
    (lat lon : Q) (radius : Int) :
    (runScan tp (circleCells off lat lon radius)).outsideLat ≠ some false ∧
    ((∀ c ∈ circleCells off lat lon radius, c.1.natAbs ≤ 84) →
      (runScan tp (circleCells off lat lon radius)).outsideLat = none) := by
  constructor
  · exact foldl_flag_ne_false tp _ initState (by simp [initState])
  · intro h
    rw [runScan, foldl_flag_none tp _ initState h]
    rfl

/-- C10 (witness): an in-range request (center latitude 10°) yields the flag
`None`. -/
theorem outside_flag_never_false_witness :
    (∀ c ∈ circleCells (fun a b _ _ => (a, b)) ⟨10, 1⟩ ⟨20, 1⟩ 1, c.1.natAbs ≤ 84) ∧
    (runScan "T" (circleCells (fun a b _ _ => (a, b)) ⟨10, 1⟩ ⟨20, 1⟩ 1)).outsideLat = none :=
  ⟨by decide,
    (outside_flag_never_false "T" (fun a b _ _ => (a, b)) ⟨10, 1⟩ ⟨20, 1⟩ 1).2 (by decide)⟩

